import Mathlib

/-!
Verification of the talking-lizards signaling-game core against its
specification.  Shallow embedding of:
  modules.py       (MessageDecoder.forward, MessageEncoder.forward)
  aliceBob.py      (sender_rewards, receiver_loss, train_epoch gradient step)
  concon/games/game.py       (Game.train_epoch gradient step)
  concon/eval/decision_tree.py (F1 computation)
Machine floats are modelled with exact rationals; the torch LSTM, softmax and
sampling are modelled as abstract data (the decoder consumes an abstract
per-step action/log-probability/entropy stream, which is exactly the interface
the surrounding source code relies on).
-/

/-! Section: message decoder (modules.py, class MessageDecoder). -/

/-- EOS symbol index, modules.py line 68 (self.eos_index = 0). -/
def eos_index : ℕ := 0

/-- Padding symbol index for base alphabet size bas, modules.py line 69
(self.padding_idx = base_alphabet_size + 1). -/
def padding_idx (bas : ℕ) : ℕ := bas + 1

/-- BOS sentinel index, modules.py line 67 (self.bos_index = base_alphabet_size + 2). -/
def bos_index (bas : ℕ) : ℕ := bas + 2

/-- One batch instance of the decoder loop.  The LSTM, the projection onto the
action space and the categorical sampling (modules.py lines 89-95) are external
torch components; we model them by the stream of raw sampled or argmax actions
and the per-step log-probability and entropy values the distribution yields.
The action space projection has exactly bas + 1 outputs (modules.py line 64),
so a raw action is always an index below bas + 1, which the type Fin (bas + 1)
records. -/
structure DecoderInstance (bas : ℕ) where
  acts : ℕ → Fin (bas + 1)
  lp : ℕ → ℚ
  ent : ℕ → ℚ

/-- Value of the has_stopped flag of one instance when step i starts
(modules.py lines 84, 103, 107): initially false, and updated after each step
with the stored action compared against EOS. -/
def hasStopped {bas : ℕ} (inst : DecoderInstance bas) : ℕ → Bool
  | 0 => false
  | i + 1 =>
    let prev := hasStopped inst i
    let action := if prev then padding_idx bas else (inst.acts i).val
    prev || decide (action = eos_index)

/-- Symbol stored at step i: the raw action, masked to PAD for instances that
have already stopped (modules.py line 103, action.masked_fill). -/
def stepAction {bas : ℕ} (inst : DecoderInstance bas) (i : ℕ) : ℕ :=
  if hasStopped inst i then padding_idx bas else (inst.acts i).val

/-- Stored log-probability contribution of step i (modules.py line 99):
the raw value multiplied by the 0/1 mask (~has_stopped).float(). -/
def stepLogProb {bas : ℕ} (inst : DecoderInstance bas) (i : ℕ) : ℚ :=
  inst.lp i * (if hasStopped inst i then 0 else 1)

/-- Stored entropy contribution of step i (modules.py line 98):
the raw value multiplied by the 0/1 mask (~has_stopped).float(). -/
def stepEntropy {bas : ℕ} (inst : DecoderInstance bas) (i : ℕ) : ℚ :=
  inst.ent i * (if hasStopped inst i then 0 else 1)

/-- Whether every instance of the batch of size B has stopped when step i
starts (modules.py line 108, has_stopped.all()). -/
def allStopped {bas : ℕ} (B : ℕ) (batch : ℕ → DecoderInstance bas) (i : ℕ) : Bool :=
  decide (∀ j, j < B → hasStopped (batch j) i = true)

/-- Number of loop iterations executed starting from step i with the given
fuel: the loop body always runs for the current step, and the loop breaks
afterwards when every instance has stopped (modules.py lines 88, 108-109). -/
def stepsRunAux {bas : ℕ} (B : ℕ) (batch : ℕ → DecoderInstance bas) : ℕ → ℕ → ℕ
  | 0, _ => 0
  | fuel + 1, i => 1 + (if allStopped B batch (i + 1) then 0 else stepsRunAux B batch fuel (i + 1))

/-- Number of columns of the stacked message tensor: the loop runs for at most
max_msg_len steps, breaking early once every instance has stopped. -/
def numSteps {bas : ℕ} (B : ℕ) (batch : ℕ → DecoderInstance bas) (maxLen : ℕ) : ℕ :=
  stepsRunAux B batch maxLen 0

/-- Row j of the stacked message tensor (modules.py line 114,
torch.stack(message, dim=1)): the stored actions of instance j over the
executed steps. -/
def messageRow {bas : ℕ} (B : ℕ) (batch : ℕ → DecoderInstance bas) (maxLen j : ℕ) : List ℕ :=
  (List.range (numSteps B batch maxLen)).map (stepAction (batch j))

/-- Cumulative sums with an accumulator (torch cumsum along a row). -/
def cumsumFrom (acc : ℕ) : List ℕ → List ℕ
  | [] => []
  | x :: xs => (acc + x) :: cumsumFrom (acc + x) xs

/-- Reported message length of instance j (modules.py line 115): the last
entry of the cumulative sum of the indicator (message != padding_idx). -/
def message_len {bas : ℕ} (B : ℕ) (batch : ℕ → DecoderInstance bas) (maxLen j : ℕ) : ℕ :=
  (cumsumFrom 0 ((messageRow B batch maxLen j).map
    (fun a => if a = padding_idx bas then 0 else 1))).getLastD 0

/-! Helper lemmas about the decoder loop. -/

theorem hasStopped_succ {bas : ℕ} (inst : DecoderInstance bas) (i : ℕ) :
    hasStopped inst (i + 1) = (hasStopped inst i || decide (stepAction inst i = eos_index)) := by
  simp only [hasStopped, stepAction]

theorem hasStopped_of_succ_le {bas : ℕ} (inst : DecoderInstance bas) {i i' : ℕ}
    (h : i ≤ i') (hs : hasStopped inst i = true) : hasStopped inst i' = true := by
  induction h with
  | refl => exact hs
  | step h ih =>
    rw [hasStopped_succ]
    simp [ih]

theorem stepAction_eq_pad_iff {bas : ℕ} (inst : DecoderInstance bas) (i : ℕ) :
    stepAction inst i = padding_idx bas ↔ hasStopped inst i = true := by
  unfold stepAction
  by_cases h : hasStopped inst i = true
  · simp [h]
  · have hlt := (inst.acts i).isLt
    rw [if_neg h]
    constructor
    · intro heq
      exact absurd heq (Nat.ne_of_lt hlt)
    · intro hc
      exact absurd hc h

theorem stepsRunAux_le {bas : ℕ} (B : ℕ) (batch : ℕ → DecoderInstance bas) :
    ∀ fuel i, stepsRunAux B batch fuel i ≤ fuel := by
  intro fuel
  induction fuel with
  | zero => intro i; simp [stepsRunAux]
  | succ n ih =>
    intro i
    unfold stepsRunAux
    by_cases h : allStopped B batch (i + 1) = true
    · simp [h]
    · simp only [h, if_neg, Bool.not_eq_true]
      have := ih (i + 1)
      omega

theorem numSteps_le {bas : ℕ} (B : ℕ) (batch : ℕ → DecoderInstance bas) (maxLen : ℕ) :
    numSteps B batch maxLen ≤ maxLen :=
  stepsRunAux_le B batch maxLen 0

theorem numSteps_pos {bas : ℕ} (B : ℕ) (batch : ℕ → DecoderInstance bas) {maxLen : ℕ}
    (h : 1 ≤ maxLen) : 1 ≤ numSteps B batch maxLen := by
  cases maxLen with
  | zero => omega
  | succ n =>
    unfold numSteps stepsRunAux
    exact Nat.le_add_right 1 _

theorem cumsumFrom_getLastD (l : List ℕ) :
    ∀ acc, (cumsumFrom acc l).getLastD acc = acc + l.sum := by
  induction l with
  | nil => intro acc; simp [cumsumFrom]
  | cons x xs ih =>
    intro acc
    simp only [cumsumFrom, List.getLastD_cons, ih (acc + x), List.sum_cons]
    omega

theorem sum_map_indicator_eq_countP (pad : ℕ) (l : List ℕ) :
    (l.map (fun a => if a = pad then 0 else 1)).sum = l.countP (fun a => decide (¬ a = pad)) := by
  induction l with
  | nil => simp
  | cons x xs ih =>
    simp only [List.map_cons, List.sum_cons, List.countP_cons, ih]
    by_cases h : x = pad
    · simp [h]
    · simp [h]
      omega

/-! Section: message encoder (modules.py, class MessageEncoder, lines 22-38).
The LSTM is an external torch component; it is modelled as an abstract causal
recurrence: a state type S, a step function consuming one symbol (the symbol
embedding lookup is absorbed into the step function) and an output read off
the state after each step.  This is exactly the interface property the
surrounding code relies on: the output at timestep t depends only on the
symbols at positions 0..t. -/

/-- Sequence of per-timestep outputs of the recurrent network run over a
symbol list from state s (modules.py line 33, self.lstm(embeddings)[0]). -/
def lstmOutputs {S O : Type} (step : S → ℕ → S) (outF : S → O) : S → List ℕ → List O
  | _, [] => []
  | s, x :: xs => outF (step s x) :: lstmOutputs step outF (step s x) xs

/-- MessageEncoder.forward (modules.py lines 22-38): run the recurrent network
over the padded message and select, per instance, the output at timestep
length - 1 (the masked_select with index == length - 1, lines 35-36).  An
out-of-range index yields none (masked_select would select nothing). -/
def messageEncoderForward {S O : Type} (step : S → ℕ → S) (outF : S → O) (s0 : S)
    (message : List ℕ) (length : ℕ) : Option O :=
  (lstmOutputs step outF s0 message).get? (length - 1)

theorem lstmOutputs_get? {S O : Type} (step : S → ℕ → S) (outF : S → O) :
    ∀ (msg : List ℕ) (s : S) (n : ℕ), n < msg.length →
      (lstmOutputs step outF s msg).get? n = some (outF (List.foldl step s (msg.take (n + 1)))) := by
  intro msg
  induction msg with
  | nil => intro s n h; simp at h
  | cons x xs ih =>
    intro s n h
    cases n with
    | zero => simp [lstmOutputs]
    | succ m =>
      simp only [lstmOutputs, List.get?_cons_succ, List.take_cons, List.foldl_cons]
      exact ih (step s x) m (by simpa using h)

/-! Section: sender reward computation (aliceBob.py, AliceBob.sender_rewards,
lines 248-273).  The pointing function lives in utils.py, which is absent from
the sources; modelled from the spec: receiver scores are softmaxed over the K
candidates into a categorical pointing distribution, from which an action is
sampled in training mode.  One PointingOutcome bundles, for one batch
instance, that distribution (its probabilities, log-probabilities and entropy,
abstract because softmax and log are transcendental torch operations) and the
sampled action. -/

structure PointingOutcome where
  probs : ℕ → ℚ
  logProb : ℕ → ℚ
  entropy : ℚ
  action : ℕ

/-- Length penalty term (aliceBob.py line 263):
1.0 - (1.0 / (1.0 + penalty * message_length)). -/
def lengthPenalty (penalty msgLen : ℚ) : ℚ :=
  1 - 1 / (1 + penalty * msgLen)

/-- Improvement factor of the adaptive penalty (aliceBob.py line 268):
(running_avg_success - chance_perf) / (1 - chance_perf). -/
def improvement_factor (runningAvgSuccess chancePerf : ℚ) : ℚ :=
  (runningAvgSuccess - chancePerf) / (1 - chancePerf)

/-- AliceBob.sender_rewards (aliceBob.py lines 248-273).  The pointing
distribution and sampled action per batch instance are given by pointings;
K is receiver_scores.size(1), the number of candidate images.  Returns the
pair (rewards, successes). -/
def sender_rewards (pointings : List PointingOutcome) (msg_lengths : List ℚ)
    (running_avg_success : ℚ) (K : ℕ) (use_expectation : Bool) (penalty : ℚ)
    (adaptative_penalty : Bool) : List ℚ × List ℚ :=
  let successes :=
    if use_expectation then pointings.map (fun pt => pt.probs 0)
    else pointings.map (fun pt => if pt.action = 0 then (1 : ℚ) else 0)
  let rewards := successes
  if 0 < penalty then
    let length_penalties := msg_lengths.map (fun L => lengthPenalty penalty L)
    let length_penalties :=
      if adaptative_penalty then
        let chance_perf : ℚ := 1 / K
        length_penalties.map (fun lp => lp * min 0 (improvement_factor running_avg_success chance_perf))
      else length_penalties
    (List.zipWith (fun r lp => r - lp) rewards length_penalties, successes)
  else
    (rewards, successes)

/-! Section: receiver loss (aliceBob.py, AliceBob.receiver_loss, lines
285-302).  Python runtime errors are modelled with Except. -/

/-- Runtime errors raised by the embedded Python code. -/
inductive PyError where
  | nameError : PyError
  | typeError : PyError
deriving DecidableEq

/-- Arithmetic mean of a list of rationals (torch mean). -/
def listMean (l : List ℚ) : ℚ := l.sum / l.length

/-- AliceBob.receiver_loss (aliceBob.py lines 285-302).  In expectation mode,
line 291 evaluates torch.tensor(0).to(probs.device) where no name probs is
bound anywhere in the module, so the branch raises NameError.  In dice mode,
success is the indicator of the sampled pointing action being 0, log_prob is
the log-probability of the sampled action, and the returned loss is
-mean(reward * log_prob) - beta_receiver * mean(entropy). -/
def receiver_loss (pointings : List PointingOutcome) (use_expectation : Bool)
    (beta_receiver : ℚ) : Except PyError ℚ :=
  if use_expectation then
    Except.error PyError.nameError
  else
    let successes := pointings.map (fun pt => if pt.action = 0 then (1 : ℚ) else 0)
    let log_probs := pointings.map (fun pt => pt.logProb pt.action)
    let rewards := successes
    let loss := -(listMean (List.zipWith (fun r lp => r * lp) rewards log_probs))
    let loss := loss - beta_receiver * listMean (pointings.map (fun pt => pt.entropy))
    Except.ok loss

/-! Section: gradient transformations in the training step
(aliceBob.py lines 339-345 and concon/games/game.py lines 113-123).
torch.nn.utils.clip_grad_value_ clamps every gradient entry element-wise to
[-threshold, threshold]; torch.nn.utils.clip_grad_norm_ rescales by the global
L2 norm, which involves a square root, so it is kept as an abstract function
parameter clipNorm. -/

/-- torch.nn.utils.clip_grad_value_: element-wise clamp of every gradient
entry to the interval [-c, c]. -/
def clip_grad_value (c : ℚ) (g : List ℚ) : List ℚ :=
  g.map (fun x => max (-c) (min c x))

/-- Gradient transformation pipeline of AliceBob.train_epoch (aliceBob.py
lines 342-343): value clipping runs first, guarded by
(grad_clipping is not None) and (grad_clipping > 0), then norm scaling,
guarded the same way. -/
def applyGradTransforms (clipNorm : ℚ → List ℚ → List ℚ)
    (grad_clipping grad_scaling : Option ℚ) (g : List ℚ) : List ℚ :=
  let g1 :=
    match grad_clipping with
    | none => g
    | some c => if 0 < c then clip_grad_value c g else g
  match grad_scaling with
  | none => g1
  | some s => if 0 < s then clipNorm s g1 else g1

/-- One training step of AliceBob.train_epoch around the optimizer
(aliceBob.py lines 328-345): backward produces the gradients, both gradient
transformations are applied, then the optimizer consumes them. -/
def trainStepGrads {Θ : Type} (backward : Θ → List ℚ) (optimStep : Θ → List ℚ → Θ)
    (clipNorm : ℚ → List ℚ → List ℚ) (grad_clipping grad_scaling : Option ℚ)
    (θ : Θ) : Θ :=
  let g := backward θ
  let g := applyGradTransforms clipNorm grad_clipping grad_scaling g
  optimStep θ g

/-- Evaluation of the Python comparison threshold > 0 where the threshold may
be None: comparing None with an int raises TypeError (game.py lines 116 and
119 perform this comparison without a None guard). -/
def pyGtZero : Option ℚ → Except PyError Bool
  | none => Except.error PyError.typeError
  | some c => Except.ok (decide (0 < c))

/-- Gradient transformation pipeline of Game.train_epoch (concon/games/game.py
lines 115-121): if self.grad_clipping > 0 then value-clip, then
if self.grad_scaling > 0 then norm-scale; no None guard on either. -/
def gameGradTransforms (clipNorm : ℚ → List ℚ → List ℚ)
    (grad_clipping grad_scaling : Option ℚ) (g : List ℚ) : Except PyError (List ℚ) := do
  let b1 ← pyGtZero grad_clipping
  let g1 := if b1 then clip_grad_value (grad_clipping.getD 0) g else g
  let b2 ← pyGtZero grad_scaling
  pure (if b2 then clipNorm (grad_scaling.getD 0) g1 else g1)

/-! Section: F1 computation of the decision-tree analysis
(concon/eval/decision_tree.py lines 126-131 and 144-149). -/

/-- Mean of the entries of values selected by the boolean mask, as in the
numpy expression values[mask].mean(): true entries count 1, false entries 0.
The mean of an empty selection is NaN in numpy, modelled as none. -/
def maskedMean (values mask : List Bool) : Option ℚ :=
  let sel := (values.zip mask).filterMap (fun p => if p.2 then some p.1 else none)
  if sel.isEmpty then none
  else some ((sel.map (fun b => if b then (1 : ℚ) else 0)).sum / sel.length)

/-- Precision of a binary classifier (decision_tree.py lines 126 and 144):
gold[prediction].mean(). -/
def binPrecision (gold prediction : List Bool) : Option ℚ :=
  maskedMean gold prediction

/-- Recall of a binary classifier (decision_tree.py lines 130 and 148):
prediction[gold].mean(). -/
def binRecall (gold prediction : List Bool) : Option ℚ :=
  maskedMean prediction gold

/-- F1 score (decision_tree.py lines 131 and 149):
(2 * precision * recall / (precision + recall)) if (precision + recall > 0.0)
else 0.0.  When either operand is NaN (none), the Python comparison
NaN > 0.0 is false, so the else branch yields 0.0. -/
def f1_score (p r : Option ℚ) : ℚ :=
  match p, r with
  | some p, some r => if 0 < p + r then 2 * p * r / (p + r) else 0
  | _, _ => 0


/-! Helper lemmas shared by several theorems. -/

theorem one_add_mul_pos {p L : ℚ} (hp : 0 < p) (hL : 0 ≤ L) : 0 < 1 + p * L := by
  have : 0 ≤ p * L := mul_nonneg hp.le hL
  linarith

theorem lengthPenalty_nonneg {p L : ℚ} (hp : 0 < p) (hL : 0 ≤ L) :
    0 ≤ lengthPenalty p L := by
  have hpos := one_add_mul_pos hp hL
  have h1 : 1 / (1 + p * L) ≤ 1 := by
    rw [div_le_one hpos]
    nlinarith
  unfold lengthPenalty
  linarith

theorem lengthPenalty_lt_one {p L : ℚ} (hp : 0 < p) (hL : 0 ≤ L) :
    lengthPenalty p L < 1 := by
  have hpos := one_add_mul_pos hp hL
  have h1 : 0 < 1 / (1 + p * L) := one_div_pos.mpr hpos
  unfold lengthPenalty
  linarith

theorem zipWith_fst {α β : Type} :
    ∀ (l1 : List α) (l2 : List β), l1.length ≤ l2.length →
      List.zipWith (fun a _ => a) l1 l2 = l1 := by
  intro l1
  induction l1 with
  | nil => intro l2 h; simp
  | cons x xs ih =>
    intro l2 h
    cases l2 with
    | nil => simp at h
    | cons y ys =>
      simp only [List.zipWith_cons_cons, List.cons.injEq, true_and]
      exact ih ys (by simpa using h)

/-- C7: for every running average success value and every chance performance
in the open interval (0,1), the adaptive scaling factor
min(0, (running_avg_success - chance_perf) / (1 - chance_perf)) computed in
sender_rewards is nonpositive, so for any nonnegative base penalty value the
scaled penalty never exceeds the base value. -/
theorem adaptive_scale_nonpositive (ras cp : ℚ) (h0 : 0 < cp) (h1 : cp < 1) :
    min 0 (improvement_factor ras cp) ≤ 0 ∧
    ∀ base : ℚ, 0 ≤ base → base * min 0 (improvement_factor ras cp) ≤ base := by
  constructor
  · exact min_le_left 0 _
  · intro base hb
    have hstep := mul_le_mul_of_nonneg_left (min_le_left 0 (improvement_factor ras cp)) hb
    have hz : base * (0 : ℚ) = 0 := mul_zero base
    linarith

theorem adaptive_scale_nonpositive_wit :
    ((0 : ℚ) < 1 / 2) ∧ ((1 : ℚ) / 2 < 1) ∧
    min 0 (improvement_factor 0 (1 / 2)) ≤ 0 ∧
    (1 : ℚ) / 4 * min 0 (improvement_factor 0 (1 / 2)) ≤ 1 / 4 :=
  ⟨by norm_num, by norm_num,
   (adaptive_scale_nonpositive 0 (1 / 2) (by norm_num) (by norm_num)).1,
   (adaptive_scale_nonpositive 0 (1 / 2) (by norm_num) (by norm_num)).2 (1 / 4) (by norm_num)⟩

/-- C3: the length penalty computed in sender_rewards equals
1 - 1/(1 + penalty * length); for a positive penalty coefficient it is
strictly increasing in the length, lies in [0,1) and is 0 at length 0; for
penalty 0.1 the lengths 1, 5, 10 give values within 1/1000 of 0.0909, 0.333
and 0.5; and with penalty 0 sender_rewards subtracts nothing, the reward being
exactly the success indicator. -/
theorem length_penalty_props (p : ℚ) (hp : 0 < p) :
    (∀ L1 L2 : ℚ, 0 ≤ L1 → L1 < L2 → lengthPenalty p L1 < lengthPenalty p L2) ∧
    (∀ L : ℚ, 0 ≤ L → 0 ≤ lengthPenalty p L ∧ lengthPenalty p L < 1) ∧
    lengthPenalty p 0 = 0 ∧
    (|lengthPenalty (1 / 10) 1 - 909 / 10000| ≤ 1 / 1000 ∧
     |lengthPenalty (1 / 10) 5 - 333 / 1000| ≤ 1 / 1000 ∧
     |lengthPenalty (1 / 10) 10 - 1 / 2| ≤ 1 / 1000) ∧
    (∀ (pointings : List PointingOutcome) (msg_lengths : List ℚ) (ras : ℚ)
       (K : ℕ) (ue ap : Bool),
      (sender_rewards pointings msg_lengths ras K ue 0 ap).1
        = (sender_rewards pointings msg_lengths ras K ue 0 ap).2) ∧
    (∀ (pointings : List PointingOutcome) (msg_lengths : List ℚ) (ras : ℚ)
       (K : ℕ) (ue : Bool),
      (sender_rewards pointings msg_lengths ras K ue p false).1
        = List.zipWith (fun s L => s - lengthPenalty p L)
            (sender_rewards pointings msg_lengths ras K ue p false).2 msg_lengths) := by
  refine ⟨?_, ?_, ?_, ⟨?_, ?_, ?_⟩, ?_, ?_⟩
  · intro L1 L2 h0 h12
    have ha := one_add_mul_pos hp h0
    have hb := one_add_mul_pos hp (le_of_lt (lt_of_le_of_lt h0 h12))
    have hab : 1 + p * L1 < 1 + p * L2 := by
      have := mul_lt_mul_of_pos_left h12 hp
      linarith
    have hfrac : 1 / (1 + p * L2) < 1 / (1 + p * L1) :=
      one_div_lt_one_div_of_lt ha hab
    unfold lengthPenalty
    linarith
  · intro L hL
    exact ⟨lengthPenalty_nonneg hp hL, lengthPenalty_lt_one hp hL⟩
  · simp [lengthPenalty]
  · rw [abs_le]
    constructor <;> norm_num [lengthPenalty]
  · rw [abs_le]
    constructor <;> norm_num [lengthPenalty]
  · rw [abs_le]
    constructor <;> norm_num [lengthPenalty]
  · intro pointings msg_lengths ras K ue ap
    simp [sender_rewards]
  · intro pointings msg_lengths ras K ue
    simp only [sender_rewards, if_pos hp, Bool.false_eq_true, if_false]
    rw [List.zipWith_map_right]

theorem length_penalty_props_wit :
    ((0 : ℚ) < 1 / 10) ∧
    lengthPenalty (1 / 10) 0 = 0 ∧
    lengthPenalty (1 / 10) 1 < lengthPenalty (1 / 10) 5 ∧
    |lengthPenalty (1 / 10) 5 - 333 / 1000| ≤ 1 / 1000 :=
  ⟨by norm_num,
   (length_penalty_props (1 / 10) (by norm_num)).2.2.1,
   (length_penalty_props (1 / 10) (by norm_num)).1 1 5 (by norm_num) (by norm_num),
   (length_penalty_props (1 / 10) (by norm_num)).2.2.2.1.2.1⟩

/-- C1 counterexample: the claim states that no length penalty takes effect
while the running average success is at or below chance performance, but with
adaptative penalty enabled, penalty 1, message length 1, K = 2 candidates and
running average success 0 (at or below chance 1/2), the raw length penalty is
the positive value 1/2 and the reward differs from the success indicator: the
scaled penalty is -1/2 and the reward is success + 1/2. -/
theorem sender_rewards_adaptive_cex :
    ((0 : ℚ) ≤ 1 / 2) ∧
    (0 : ℚ) < lengthPenalty 1 1 ∧
    (sender_rewards [⟨fun _ => 0, fun _ => 0, 0, 1⟩] [1] 0 2 false 1 true).2 = [0] ∧
    (sender_rewards [⟨fun _ => 0, fun _ => 0, 0, 1⟩] [1] 0 2 false 1 true).1 = [1 / 2] ∧
    (sender_rewards [⟨fun _ => 0, fun _ => 0, 0, 1⟩] [1] 0 2 false 1 true).1
      ≠ (sender_rewards [⟨fun _ => 0, fun _ => 0, 0, 1⟩] [1] 0 2 false 1 true).2 := by
  refine ⟨by norm_num, ?_, ?_, ?_, ?_⟩
  · norm_num [lengthPenalty]
  · simp [sender_rewards]
  · norm_num [sender_rewards, lengthPenalty, improvement_factor, min_def]
  · norm_num [sender_rewards, lengthPenalty, improvement_factor, min_def]

/-- C1 amended: with adaptative penalty enabled and a positive penalty
coefficient, sender_rewards scales the length penalty by
min(0, (running_avg_success - chance_perf) / (1 - chance_perf)) with
chance_perf = 1/K; the scaled penalty is nonpositive for nonnegative message
lengths, so the raw length penalty never reduces the reward below the success
indicator, and once the running average success reaches or exceeds chance
performance the scaled penalty vanishes and the reward equals the success
indicator exactly. -/
theorem sender_rewards_adaptive_amended (pointings : List PointingOutcome)
    (msg_lengths : List ℚ) (ras : ℚ) (K : ℕ) (ue : Bool) (p : ℚ)
    (hp : 0 < p) (hK : 2 ≤ K) (hlen : msg_lengths.length = pointings.length) :
    (sender_rewards pointings msg_lengths ras K ue p true).1
      = List.zipWith
          (fun s L => s - lengthPenalty p L * min 0 (improvement_factor ras (1 / K)))
          (sender_rewards pointings msg_lengths ras K ue p true).2 msg_lengths ∧
    ((1 : ℚ) / K ≤ ras →
      (sender_rewards pointings msg_lengths ras K ue p true).1
        = (sender_rewards pointings msg_lengths ras K ue p true).2) ∧
    (∀ L : ℚ, 0 ≤ L →
      lengthPenalty p L * min 0 (improvement_factor ras (1 / K)) ≤ 0) := by
  have hK2 : (2 : ℚ) ≤ (K : ℚ) := by exact_mod_cast hK
  have hKpos : (0 : ℚ) < (K : ℚ) := by linarith
  have hcp : (1 : ℚ) / K ≤ 1 / 2 := one_div_le_one_div_of_le (by norm_num) hK2
  have hstruct :
      (sender_rewards pointings msg_lengths ras K ue p true).1
        = List.zipWith
            (fun s L => s - lengthPenalty p L * min 0 (improvement_factor ras (1 / K)))
            (sender_rewards pointings msg_lengths ras K ue p true).2 msg_lengths := by
    simp only [sender_rewards, if_pos hp, eq_self_iff_true, if_true, List.map_map]
    rw [List.zipWith_map_right]
    simp only [Function.comp]
  refine ⟨hstruct, ?_, ?_⟩
  · intro hras
    have hden : (0 : ℚ) < 1 - 1 / K := by linarith
    have hif : 0 ≤ improvement_factor ras (1 / K) :=
      div_nonneg (by linarith) hden.le
    have hmin : min 0 (improvement_factor ras (1 / K)) = 0 := min_eq_left hif
    rw [hstruct, hmin]
    simp only [mul_zero, sub_zero]
    refine zipWith_fst _ _ ?_
    have hs2 : (sender_rewards pointings msg_lengths ras K ue p true).2.length
        = pointings.length := by
      simp only [sender_rewards, if_pos hp, if_pos rfl]
      cases ue <;> simp
    rw [hs2, ← hlen]
  · intro L hL
    exact mul_nonpos_of_nonneg_of_nonpos (lengthPenalty_nonneg hp hL) (min_le_left 0 _)

theorem sender_rewards_adaptive_amended_wit :
    (sender_rewards [⟨fun _ => 0, fun _ => 0, 0, 0⟩] [1] 1 2 false 1 true).1
      = (sender_rewards [⟨fun _ => 0, fun _ => 0, 0, 0⟩] [1] 1 2 false 1 true).2 ∧
    lengthPenalty 1 3 * min 0 (improvement_factor 1 (1 / (2 : ℕ))) ≤ 0 :=
  ⟨(sender_rewards_adaptive_amended [⟨fun _ => 0, fun _ => 0, 0, 0⟩] [1] 1 2 false 1
      (by norm_num) (by norm_num) (by decide)).2.1 (by norm_num),
   (sender_rewards_adaptive_amended [⟨fun _ => 0, fun _ => 0, 0, 0⟩] [1] 1 2 false 1
      (by norm_num) (by norm_num) (by decide)).2.2 3 (by norm_num)⟩

theorem maskedMean_nonneg (values mask : List Bool) {q : ℚ}
    (h : maskedMean values mask = some q) : 0 ≤ q := by
  unfold maskedMean at h
  set sel := (values.zip mask).filterMap (fun p => if p.2 then some p.1 else none) with hsel
  by_cases he : sel.isEmpty
  · rw [if_pos he] at h
    exact absurd h (by simp)
  · rw [if_neg he] at h
    have hq : ((sel.map (fun b => if b then (1 : ℚ) else 0)).sum / sel.length) = q := by
      simpa using h
    rw [← hq]
    refine div_nonneg ?_ (by positivity)
    refine List.sum_nonneg ?_
    intro x hx
    obtain ⟨b, _, rfl⟩ := List.mem_map.mp hx
    by_cases hb : b <;> simp [hb]

/-- C9: in the decision-tree analysis, for every binary classifier whose
precision and recall are defined (nonempty selections, so no NaN), the F1
computation returns 0 whenever precision + recall equals 0, without raising a
division-by-zero error (the guarded expression is total), and returns
2 * precision * recall / (precision + recall) otherwise. -/
theorem f1_zero_guard (gold prediction : List Bool) (p r : ℚ)
    (hp : binPrecision gold prediction = some p)
    (hr : binRecall gold prediction = some r) :
    (p + r = 0 → f1_score (binPrecision gold prediction) (binRecall gold prediction) = 0) ∧
    (p + r ≠ 0 → f1_score (binPrecision gold prediction) (binRecall gold prediction)
        = 2 * p * r / (p + r)) := by
  have hp0 : 0 ≤ p := maskedMean_nonneg _ _ hp
  have hr0 : 0 ≤ r := maskedMean_nonneg _ _ hr
  have hred : f1_score (some p) (some r)
      = if 0 < p + r then 2 * p * r / (p + r) else 0 := rfl
  rw [hp, hr, hred]
  constructor
  · intro h0
    rw [h0]
    norm_num
  · intro hne
    have hpos : 0 < p + r := lt_of_le_of_ne (by linarith) (Ne.symm hne)
    rw [if_pos hpos]

theorem f1_zero_guard_wit :
    binPrecision [true, false] [true, true] = some (1 / 2) ∧
    binRecall [true, false] [true, true] = some 1 ∧
    f1_score (binPrecision [true, false] [true, true])
        (binRecall [true, false] [true, true]) = 2 * (1 / 2) * 1 / (1 / 2 + 1) := by
  have hp : binPrecision [true, false] [true, true] = some (1 / 2) := by
    norm_num [binPrecision, maskedMean, List.zip_cons_cons, List.filterMap_cons,
      List.filterMap_nil]
  have hr : binRecall [true, false] [true, true] = some 1 := by
    norm_num [binRecall, maskedMean, List.zip_cons_cons, List.filterMap_cons,
      List.filterMap_nil]
  exact ⟨hp, hr, (f1_zero_guard [true, false] [true, true] (1 / 2) 1 hp hr).2 (by norm_num)⟩

/-- C6: the claim states receiver_loss supports both success modes without
raising an error; in fact the expectation-mode branch evaluates the unbound
name probs (aliceBob.py line 291) and raises NameError, while dice mode works
and returns -mean(reward * log_prob) - beta_receiver * mean(entropy) with
success the indicator of the sampled pointing action being 0.  Evaluated here
at a concrete pointing outcome (sampled action 0, log-probability -1 at index
0, entropy 3/2, beta_receiver 1): expectation mode errors, dice mode returns
-(1 * -1) - 1 * (3/2) = -1/2. -/
theorem receiver_loss_expectation_name_error :
    receiver_loss [⟨fun _ => 1 / 2, fun i => if i = 0 then -1 else -2, 3 / 2, 0⟩] true 1
      = Except.error PyError.nameError ∧
    receiver_loss [⟨fun _ => 1 / 2, fun i => if i = 0 then -1 else -2, 3 / 2, 0⟩] false 1
      = Except.ok (-(1 / 2)) := by
  constructor
  · rfl
  · simp only [receiver_loss, listMean]
    norm_num

/-- C8 counterexample: the claim states a gradient threshold of None is not an
error; in Game.train_epoch the comparison self.grad_clipping > 0 has no None
guard, so a None clipping threshold raises TypeError even when the scaling
threshold is a positive number. -/
theorem grad_none_threshold_cex :
    gameGradTransforms (fun _ g => g) none (some 1) [1]
      = Except.error PyError.typeError := rfl

/-- C8 amended: in AliceBob.train_epoch, gradients produced by backward are
transformed before the optimizer step, with element-wise value clipping (an
entry-wise clamp to [-c, c]) applied first and norm scaling second, each
enabled only when its threshold is set and positive; a threshold of None or
of a nonpositive value disables the corresponding transformation there
without error.  In Game.train_epoch the same order and the nonpositive
disabling hold, but a None threshold raises TypeError. -/
theorem grad_transform_order_amended {Θ : Type} (backward : Θ → List ℚ)
    (optimStep : Θ → List ℚ → Θ) (clipNorm : ℚ → List ℚ → List ℚ) (θ : Θ)
    (c s : ℚ) (hc : 0 < c) (hs : 0 < s) :
    trainStepGrads backward optimStep clipNorm (some c) (some s) θ
      = optimStep θ (clipNorm s (clip_grad_value c (backward θ))) ∧
    (∀ g : List ℚ, clip_grad_value c g = g.map (fun x => max (-c) (min c x))) ∧
    (∀ g : List ℚ, applyGradTransforms clipNorm none none g = g) ∧
    (∀ (c2 s2 : ℚ) (g : List ℚ), c2 ≤ 0 → s2 ≤ 0 →
      applyGradTransforms clipNorm (some c2) (some s2) g = g) ∧
    (∀ g : List ℚ, applyGradTransforms clipNorm none (some s) g = clipNorm s g) ∧
    (∀ g : List ℚ, applyGradTransforms clipNorm (some c) none g = clip_grad_value c g) ∧
    (∀ g : List ℚ, gameGradTransforms clipNorm (some c) (some s) g
        = Except.ok (clipNorm s (clip_grad_value c g))) ∧
    (∀ (c2 s2 : ℚ) (g : List ℚ), c2 ≤ 0 → s2 ≤ 0 →
      gameGradTransforms clipNorm (some c2) (some s2) g = Except.ok g) ∧
    (∀ g : List ℚ, gameGradTransforms clipNorm none (some s) g
        = Except.error PyError.typeError) := by
  refine ⟨?_, ?_, ?_, ?_, ?_, ?_, ?_, ?_, ?_⟩
  · simp [trainStepGrads, applyGradTransforms, if_pos hc, if_pos hs]
  · intro g
    rfl
  · intro g
    rfl
  · intro c2 s2 g hc2 hs2
    simp [applyGradTransforms, if_neg (not_lt.mpr hc2), if_neg (not_lt.mpr hs2)]
  · intro g
    simp [applyGradTransforms, if_pos hs]
  · intro g
    simp [applyGradTransforms, if_pos hc]
  · intro g
    simp [gameGradTransforms, pyGtZero, hc, hs, bind, Except.bind, pure, Except.pure]
  · intro c2 s2 g hc2 hs2
    simp [gameGradTransforms, pyGtZero, not_lt.mpr hc2, not_lt.mpr hs2, bind, Except.bind,
      pure, Except.pure]
  · intro g
    rfl

theorem grad_transform_order_amended_wit :
    trainStepGrads (fun θ : List ℚ => θ) (fun _ g => g) (fun _ g => g)
        (some 1) (some 1) [2]
      = (fun _ g => g : List ℚ → List ℚ → List ℚ) [2]
          ((fun _ g => g : ℚ → List ℚ → List ℚ) 1 (clip_grad_value 1 [2])) ∧
    applyGradTransforms (fun _ g => g) none none [2] = [2] :=
  ⟨(grad_transform_order_amended (fun θ : List ℚ => θ) (fun _ g => g) (fun _ g => g)
      [2] 1 1 (by norm_num) (by norm_num)).1,
   (grad_transform_order_amended (fun θ : List ℚ => θ) (fun _ g => g) (fun _ g => g)
      [2] 1 1 (by norm_num) (by norm_num)).2.2.1 [2]⟩

/-- C4: MessageEncoder.forward returns, for each instance, the recurrent
output at timestep length - 1, i.e. the output after consuming exactly the
true (non-padding) symbols of the sequence; consequently the returned summary
vector is identical for any number of trailing PAD symbols appended after
position length - 1. -/
theorem message_encoder_last_true_step {S O : Type} (step : S → ℕ → S) (outF : S → O)
    (s0 : S) (trueSeq pads : List ℕ) (h : 1 ≤ trueSeq.length) :
    messageEncoderForward step outF s0 (trueSeq ++ pads) trueSeq.length
      = some (outF (List.foldl step s0 trueSeq)) ∧
    messageEncoderForward step outF s0 (trueSeq ++ pads) trueSeq.length
      = messageEncoderForward step outF s0 trueSeq trueSeq.length := by
  have hkey : ∀ tail : List ℕ,
      messageEncoderForward step outF s0 (trueSeq ++ tail) trueSeq.length
        = some (outF (List.foldl step s0 trueSeq)) := by
    intro tail
    unfold messageEncoderForward
    have hlt : trueSeq.length - 1 < (trueSeq ++ tail).length := by
      rw [List.length_append]
      omega
    rw [lstmOutputs_get? step outF (trueSeq ++ tail) s0 (trueSeq.length - 1) hlt]
    have hsub : trueSeq.length - 1 + 1 = trueSeq.length := by omega
    rw [hsub]
    rw [List.take_left]
  have h2 := hkey pads
  have h3 : messageEncoderForward step outF s0 trueSeq trueSeq.length
      = some (outF (List.foldl step s0 trueSeq)) := by
    have := hkey []
    simpa using this
  exact ⟨h2, h2.trans h3.symm⟩

theorem message_encoder_last_true_step_wit :
    messageEncoderForward (fun s x => 2 * s + x) (fun s => s) 0
        ([1, 2, 3] ++ [9, 9, 9, 9, 9]) 3
      = some (List.foldl (fun s x => 2 * s + x) 0 [1, 2, 3]) ∧
    messageEncoderForward (fun s x => 2 * s + x) (fun s => s) 0
        ([1, 2, 3] ++ [9, 9, 9, 9, 9]) 3
      = messageEncoderForward (fun s x => 2 * s + x) (fun s => s) 0 [1, 2, 3] 3 := by
  have happ := message_encoder_last_true_step (fun s x => 2 * s + x) (fun s => s) 0
    [1, 2, 3] [9, 9, 9, 9, 9] (by decide)
  exact ⟨happ.1, happ.2⟩

theorem getD_range_map (f : ℕ → ℕ) (n i : ℕ) (h : i < n) :
    ((List.range n).map f).getD i 0 = f i := by
  rw [List.getD_eq_getElem?_getD, List.getElem?_map, List.getElem?_range h]
  rfl

theorem messageRow_length {bas : ℕ} (B : ℕ) (batch : ℕ → DecoderInstance bas)
    (maxLen j : ℕ) : (messageRow B batch maxLen j).length = numSteps B batch maxLen := by
  simp [messageRow]

theorem messageRow_getD {bas : ℕ} (B : ℕ) (batch : ℕ → DecoderInstance bas)
    {maxLen j i : ℕ} (h : i < numSteps B batch maxLen) :
    (messageRow B batch maxLen j).getD i 0 = stepAction (batch j) i :=
  getD_range_map _ _ _ h

/-- C2: in every MessageDecoder.forward output, once a position of an
message row of an instance is PAD every later position of that row is PAD as
well; and for every timestep strictly after the step at which an instance
emitted EOS, the stored per-step log-probability and entropy contributions of
that instance are exactly zero. -/
theorem decoder_pad_suffix_zero_contribs {bas : ℕ} (B : ℕ)
    (batch : ℕ → DecoderInstance bas) (maxLen j : ℕ) :
    (∀ i i' : ℕ, i < i' → i' < (messageRow B batch maxLen j).length →
      (messageRow B batch maxLen j).getD i 0 = padding_idx bas →
      (messageRow B batch maxLen j).getD i' 0 = padding_idx bas) ∧
    (∀ s i : ℕ, stepAction (batch j) s = eos_index → s < i →
      stepLogProb (batch j) i = 0 ∧ stepEntropy (batch j) i = 0) := by
  constructor
  · intro i i' hii hi' hpad
    rw [messageRow_length] at hi'
    have hi : i < numSteps B batch maxLen := lt_trans hii hi'
    rw [messageRow_getD B batch hi] at hpad
    rw [messageRow_getD B batch hi']
    have hstop : hasStopped (batch j) i = true :=
      (stepAction_eq_pad_iff (batch j) i).mp hpad
    have hstop2 : hasStopped (batch j) i' = true :=
      hasStopped_of_succ_le (batch j) (le_of_lt hii) hstop
    exact (stepAction_eq_pad_iff (batch j) i').mpr hstop2
  · intro s i heos hsi
    have hstop1 : hasStopped (batch j) (s + 1) = true := by
      rw [hasStopped_succ, heos]
      simp
    have hstopi : hasStopped (batch j) i = true :=
      hasStopped_of_succ_le (batch j) hsi hstop1
    constructor
    · rw [stepLogProb, if_pos hstopi, mul_zero]
    · rw [stepEntropy, if_pos hstopi, mul_zero]

theorem decoder_pad_suffix_zero_contribs_wit :
    ((messageRow 2 (fun j => if j = 0 then ⟨fun _ => 0, fun _ => 5, fun _ => 7⟩
        else ⟨fun _ => 1, fun _ => 5, fun _ => 7⟩ : ℕ → DecoderInstance 2) 3 0).getD 2 0
      = padding_idx 2) ∧
    stepLogProb ((fun j => if j = 0 then ⟨fun _ => 0, fun _ => 5, fun _ => 7⟩
        else ⟨fun _ => 1, fun _ => 5, fun _ => 7⟩ : ℕ → DecoderInstance 2) 0) 2 = 0 ∧
    stepEntropy ((fun j => if j = 0 then ⟨fun _ => 0, fun _ => 5, fun _ => 7⟩
        else ⟨fun _ => 1, fun _ => 5, fun _ => 7⟩ : ℕ → DecoderInstance 2) 0) 2 = 0 := by
  have hmain := decoder_pad_suffix_zero_contribs 2
    (fun j => if j = 0 then ⟨fun _ => 0, fun _ => 5, fun _ => 7⟩
      else ⟨fun _ => 1, fun _ => 5, fun _ => 7⟩ : ℕ → DecoderInstance 2) 3 0
  refine ⟨hmain.1 1 2 (by decide) (by decide) (by decide), ?_, ?_⟩
  · exact (hmain.2 0 2 (by decide) (by decide)).1
  · exact (hmain.2 0 2 (by decide) (by decide)).2

theorem countP_range_map_one (f : ℕ → ℕ) (p : ℕ → Bool)
    (h0 : p (f 0) = true) (h1 : ∀ i, 1 ≤ i → p (f i) = false) :
    ∀ n, 1 ≤ n → ((List.range n).map f).countP p = 1 := by
  intro n
  induction n with
  | zero => intro h; omega
  | succ m ih =>
    intro _
    rw [List.range_succ, List.map_append, List.countP_append]
    cases Nat.eq_zero_or_pos m with
    | inl hz =>
      subst hz
      simp [h0]
    | inr hpos =>
      rw [ih hpos]
      simp [h1 m hpos]

/-- C5: in every MessageDecoder.forward output with max_msg_len at least 1,
the reported message_len of an instance equals the count of non-PAD symbols
of its message row, lies between 1 and max_msg_len, and an instance whose
very first stored symbol is EOS gets message_len exactly 1. -/
theorem decoder_message_len_spec {bas : ℕ} (B : ℕ) (batch : ℕ → DecoderInstance bas)
    (maxLen j : ℕ) (hmax : 1 ≤ maxLen) :
    message_len B batch maxLen j
      = (messageRow B batch maxLen j).countP (fun a => decide (¬ a = padding_idx bas)) ∧
    1 ≤ message_len B batch maxLen j ∧
    message_len B batch maxLen j ≤ maxLen ∧
    (stepAction (batch j) 0 = eos_index → message_len B batch maxLen j = 1) := by
  have hT1 : 1 ≤ numSteps B batch maxLen := numSteps_pos B batch hmax
  have hcount : message_len B batch maxLen j
      = (messageRow B batch maxLen j).countP (fun a => decide (¬ a = padding_idx bas)) := by
    unfold message_len
    rw [cumsumFrom_getLastD, Nat.zero_add, sum_map_indicator_eq_countP]
  have hfirst : stepAction (batch j) 0 ≠ padding_idx bas := by
    intro hpad
    have := (stepAction_eq_pad_iff (batch j) 0).mp hpad
    simp [hasStopped] at this
  refine ⟨hcount, ?_, ?_, ?_⟩
  · rw [hcount]
    rw [Nat.succ_le_iff, List.countP_pos_iff]
    refine ⟨stepAction (batch j) 0, ?_, by simpa using hfirst⟩
    unfold messageRow
    exact List.mem_map_of_mem _ (List.mem_range.mpr hT1)
  · rw [hcount]
    calc (messageRow B batch maxLen j).countP (fun a => decide (¬ a = padding_idx bas))
        ≤ (messageRow B batch maxLen j).length := List.countP_le_length _
      _ = numSteps B batch maxLen := messageRow_length B batch maxLen j
      _ ≤ maxLen := numSteps_le B batch maxLen
  · intro heos
    rw [hcount]
    unfold messageRow
    refine countP_range_map_one _ _ ?_ ?_ _ hT1
    · simpa using hfirst
    · intro i hi
      have hstop1 : hasStopped (batch j) 1 = true := by
        rw [hasStopped_succ, heos]
        simp
      have hstopi : hasStopped (batch j) i = true :=
        hasStopped_of_succ_le (batch j) hi hstop1
      have hpad : stepAction (batch j) i = padding_idx bas :=
        (stepAction_eq_pad_iff (batch j) i).mpr hstopi
      simp [hpad]

theorem decoder_message_len_spec_wit :
    message_len 2 (fun j => if j = 0 then ⟨fun _ => 0, fun _ => 5, fun _ => 7⟩
        else ⟨fun _ => 1, fun _ => 5, fun _ => 7⟩ : ℕ → DecoderInstance 2) 3 0 = 1 ∧
    1 ≤ message_len 2 (fun j => if j = 0 then ⟨fun _ => 0, fun _ => 5, fun _ => 7⟩
        else ⟨fun _ => 1, fun _ => 5, fun _ => 7⟩ : ℕ → DecoderInstance 2) 3 1 ∧
    message_len 2 (fun j => if j = 0 then ⟨fun _ => 0, fun _ => 5, fun _ => 7⟩
        else ⟨fun _ => 1, fun _ => 5, fun _ => 7⟩ : ℕ → DecoderInstance 2) 3 1 ≤ 3 := by
  have h0 := decoder_message_len_spec 2
    (fun j => if j = 0 then ⟨fun _ => 0, fun _ => 5, fun _ => 7⟩
      else ⟨fun _ => 1, fun _ => 5, fun _ => 7⟩ : ℕ → DecoderInstance 2) 3 0 (by decide)
  have h1 := decoder_message_len_spec 2
    (fun j => if j = 0 then ⟨fun _ => 0, fun _ => 5, fun _ => 7⟩
      else ⟨fun _ => 1, fun _ => 5, fun _ => 7⟩ : ℕ → DecoderInstance 2) 3 1 (by decide)
  exact ⟨h0.2.2.2 (by decide), h1.2.1, h1.2.2.1⟩

/-- C10: every symbol of every message row produced by MessageDecoder.forward
lies in the set of indices 0..base_alphabet_size together with PAD; the raw
sampled or argmax action is always one of the base_alphabet_size + 1 indices
of the action-space projection, so it is never PAD and never BOS, the BOS
sentinel never appears in an emitted message, and a PAD symbol appears at a
position only because the post-EOS mask wrote it there (the instance had
already stopped). -/
theorem decoder_symbol_range {bas : ℕ} (B : ℕ) (batch : ℕ → DecoderInstance bas)
    (maxLen j i : ℕ) (hi : i < (messageRow B batch maxLen j).length) :
    ((messageRow B batch maxLen j).getD i 0 ≤ bas ∨
      (messageRow B batch maxLen j).getD i 0 = padding_idx bas) ∧
    (messageRow B batch maxLen j).getD i 0 ≠ bos_index bas ∧
    ((batch j).acts i).val < bas + 1 ∧
    ((batch j).acts i).val ≠ padding_idx bas ∧
    ((messageRow B batch maxLen j).getD i 0 = padding_idx bas →
      hasStopped (batch j) i = true) := by
  rw [messageRow_length] at hi
  rw [messageRow_getD B batch hi]
  have hlt := ((batch j).acts i).isLt
  have hcases : stepAction (batch j) i ≤ bas ∨ stepAction (batch j) i = padding_idx bas := by
    unfold stepAction
    by_cases h : hasStopped (batch j) i = true
    · right
      rw [if_pos h]
    · left
      rw [if_neg h]
      omega
  refine ⟨hcases, ?_, hlt, ?_, fun hpad => (stepAction_eq_pad_iff (batch j) i).mp hpad⟩
  · unfold bos_index
    unfold padding_idx at hcases
    omega
  · unfold padding_idx
    omega

theorem decoder_symbol_range_wit :
    ((messageRow 2 (fun j => if j = 0 then ⟨fun _ => 0, fun _ => 5, fun _ => 7⟩
        else ⟨fun _ => 1, fun _ => 5, fun _ => 7⟩ : ℕ → DecoderInstance 2) 3 0).getD 1 0 ≤ 2 ∨
      (messageRow 2 (fun j => if j = 0 then ⟨fun _ => 0, fun _ => 5, fun _ => 7⟩
        else ⟨fun _ => 1, fun _ => 5, fun _ => 7⟩ : ℕ → DecoderInstance 2) 3 0).getD 1 0
        = padding_idx 2) ∧
    (messageRow 2 (fun j => if j = 0 then ⟨fun _ => 0, fun _ => 5, fun _ => 7⟩
        else ⟨fun _ => 1, fun _ => 5, fun _ => 7⟩ : ℕ → DecoderInstance 2) 3 0).getD 1 0
      ≠ bos_index 2 := by
  have hmain := decoder_symbol_range 2
    (fun j => if j = 0 then ⟨fun _ => 0, fun _ => 5, fun _ => 7⟩
      else ⟨fun _ => 1, fun _ => 5, fun _ => 7⟩ : ℕ → DecoderInstance 2) 3 0 1 (by decide)
  exact ⟨hmain.1, hmain.2.1⟩
